import Mathlib

/-!
Verification of the selection tri-state calculator, the mock-data array
expander and the skip-until-non-null stream operator of the
angular-snippets repository, via a shallow embedding of the TypeScript
sources into Lean.
-/

set_option maxHeartbeats 1000000

/-- Tri-state values for selection states, from
`src/utils/computeSelectionTriState.ts` (`type TriState`). -/
inductive TriState where
  | indeterminate
  | all
  | none
deriving DecidableEq, Repr

/-- The accumulation loop shared verbatim (up to the per-item membership
test `isSelected`) by `computeSelectionTriStateByCompare` (lines 51-65)
and `computeSelectionTriStateByKey` (lines 107-121): walk `allItems`
left to right keeping the two booleans `hasSelected` / `hasUnselected`,
short-circuiting to `indeterminate` as soon as both are set, and after
the walk returning `all` if `hasSelected` else `none`. -/
def triStateLoop {α ρ : Type} (isSelected : α → Bool) (stateMapper : TriState → ρ) :
    List α → Bool → Bool → ρ
  | [], hasSelected, _hasUnselected =>
      if hasSelected then stateMapper TriState.all else stateMapper TriState.none
  | item :: rest, hasSelected, hasUnselected =>
      let isSel := isSelected item
      let hasSelected' := if isSel then true else hasSelected
      let hasUnselected' := if isSel then hasUnselected else true
      if hasSelected' && hasUnselected' then stateMapper TriState.indeterminate
      else triStateLoop isSelected stateMapper rest hasSelected' hasUnselected'

/-- Embedding of `computeSelectionTriStateByCompare` from
`src/utils/computeSelectionTriState.ts`: per-item membership is
`selectedItems.some(selected => compareFn(item, selected))`. -/
def computeSelectionTriStateByCompare {α ρ : Type} (allItems selectedItems : List α)
    (compareFn : α → α → Bool) (stateMapper : TriState → ρ) : ρ :=
  triStateLoop (fun item => selectedItems.any fun selected => compareFn item selected)
    stateMapper allItems false false

/-- Embedding of `computeSelectionTriStateByKey` from
`src/utils/computeSelectionTriState.ts`, after its first line has
normalized the key-or-extractor argument into an extractor function:
`selectedKeys` is the set of keys of `selectedItems` (membership in the
JS `Set` of scalar keys is membership in the list of mapped keys), and
per-item membership is `selectedKeys.has(extractor(item))`. -/
def computeSelectionTriStateByKey {α κ ρ : Type} [DecidableEq κ]
    (allItems selectedItems : List α) (keyExtractor : α → κ)
    (stateMapper : TriState → ρ) : ρ :=
  let selectedKeys := selectedItems.map keyExtractor
  triStateLoop (fun item => selectedKeys.contains (keyExtractor item))
    stateMapper allItems false false

/-- Loop invariant of `triStateLoop`: starting from flags that are not
both set, the loop computes the classification determined by whether
some item is selected and whether some item is unselected. -/
lemma triStateLoop_spec {α ρ : Type} (isSel : α → Bool) (mapper : TriState → ρ) :
    ∀ (l : List α) (hasSel hasUnsel : Bool), (hasSel && hasUnsel) = false →
      triStateLoop isSel mapper l hasSel hasUnsel =
        mapper (if (hasSel || l.any isSel) && (hasUnsel || l.any fun a => !isSel a) then
                  TriState.indeterminate
                else if hasSel || l.any isSel then TriState.all else TriState.none) := by
  intro l
  induction l with
  | nil =>
      intro hasSel hasUnsel h
      cases hasSel <;> cases hasUnsel <;> simp_all [triStateLoop]
  | cons a l ih =>
      intro hasSel hasUnsel h
      cases hsa : isSel a
      · cases hasSel
        · have hrec := ih false true (by simp)
          simp only [triStateLoop, hsa] at hrec ⊢
          simp only [List.any_cons, hsa] at *
          cases hany1 : l.any isSel <;>
            cases hany2 : l.any (fun a => !isSel a) <;> simp_all
        · -- hasSelected already true, current item unselected: short-circuit
          have hUnsel : hasUnsel = false := by
            cases hasUnsel <;> simp_all
          subst hUnsel
          simp [triStateLoop, hsa, List.any_cons]
      · cases hasUnsel
        · have hrec := ih true false (by simp)
          simp only [triStateLoop, hsa] at hrec ⊢
          simp only [List.any_cons, hsa] at *
          cases hany1 : l.any isSel <;>
            cases hany2 : l.any (fun a => !isSel a) <;> simp_all
        · have hSel : hasSel = false := by
            cases hasSel <;> simp_all
          subst hSel
          simp [triStateLoop, hsa, List.any_cons]

/-- Derived classification of a universe by a membership predicate:
`indeterminate` when both a selected and an unselected item exist,
else `all` when a selected item exists, else `none`. -/
def triStateOfAny {α : Type} (isSel : α → Bool) (l : List α) : TriState :=
  if l.any isSel && l.any (fun a => !isSel a) then TriState.indeterminate
  else if l.any isSel then TriState.all
  else TriState.none

lemma triStateLoop_eq_triStateOfAny {α ρ : Type} (isSel : α → Bool)
    (mapper : TriState → ρ) (l : List α) :
    triStateLoop isSel mapper l false false = mapper (triStateOfAny isSel l) := by
  rw [triStateLoop_spec isSel mapper l false false (by simp)]
  simp [triStateOfAny]

lemma byCompare_eq_triStateOfAny {α ρ : Type} (allItems selectedItems : List α)
    (compareFn : α → α → Bool) (stateMapper : TriState → ρ) :
    computeSelectionTriStateByCompare allItems selectedItems compareFn stateMapper =
      stateMapper (triStateOfAny
        (fun item => selectedItems.any fun selected => compareFn item selected) allItems) :=
  triStateLoop_eq_triStateOfAny _ _ _

lemma byKey_eq_triStateOfAny {α κ ρ : Type} [DecidableEq κ]
    (allItems selectedItems : List α) (keyExtractor : α → κ)
    (stateMapper : TriState → ρ) :
    computeSelectionTriStateByKey allItems selectedItems keyExtractor stateMapper =
      stateMapper (triStateOfAny
        (fun item => (selectedItems.map keyExtractor).contains (keyExtractor item)) allItems) :=
  triStateLoop_eq_triStateOfAny _ _ _

/-- In the comparator form, a universe containing both a matching and a
non-matching item yields `indeterminate`. -/
lemma byCompare_eq_indeterminate {α ρ : Type} (allItems selectedItems : List α)
    (compareFn : α → α → Bool) (stateMapper : TriState → ρ)
    (hsel : ∃ a ∈ allItems, ∃ b ∈ selectedItems, compareFn a b = true)
    (hunsel : ∃ a ∈ allItems, ∀ b ∈ selectedItems, compareFn a b = false) :
    computeSelectionTriStateByCompare allItems selectedItems compareFn stateMapper =
      stateMapper TriState.indeterminate := by
  rw [byCompare_eq_triStateOfAny]
  obtain ⟨a, ha, b, hb, hab⟩ := hsel
  obtain ⟨a2, ha2, hnone⟩ := hunsel
  have h1 : allItems.any (fun item => selectedItems.any fun s => compareFn item s) = true :=
    List.any_eq_true.mpr ⟨a, ha, List.any_eq_true.mpr ⟨b, hb, by simp [hab]⟩⟩
  have h2 : allItems.any
      (fun item => !(selectedItems.any fun s => compareFn item s)) = true := by
    refine List.any_eq_true.mpr ⟨a2, ha2, ?_⟩
    simp only [Bool.not_eq_true', List.any_eq_false]
    intro b hb
    simp [hnone b hb]
  simp [triStateOfAny, h1, h2]

/-- In the comparator form, a non-empty universe every item of which
matches yields `all`. -/
lemma byCompare_eq_all {α ρ : Type} (allItems selectedItems : List α)
    (compareFn : α → α → Bool) (stateMapper : TriState → ρ)
    (hne : allItems ≠ [])
    (hall : ∀ a ∈ allItems, ∃ b ∈ selectedItems, compareFn a b = true) :
    computeSelectionTriStateByCompare allItems selectedItems compareFn stateMapper =
      stateMapper TriState.all := by
  rw [byCompare_eq_triStateOfAny]
  obtain ⟨a0, ha0⟩ := List.exists_mem_of_ne_nil allItems hne
  have h1 : allItems.any (fun item => selectedItems.any fun s => compareFn item s) = true := by
    obtain ⟨b, hb, hab⟩ := hall a0 ha0
    exact List.any_eq_true.mpr ⟨a0, ha0, List.any_eq_true.mpr ⟨b, hb, by simp [hab]⟩⟩
  have h2 : allItems.any
      (fun item => !(selectedItems.any fun s => compareFn item s)) = false := by
    simp only [List.any_eq_false]
    intro a ha
    obtain ⟨b, hb, hab⟩ := hall a ha
    have hx : (selectedItems.any fun s => compareFn a s) = true :=
      List.any_eq_true.mpr ⟨b, hb, by simp [hab]⟩
    simp [hx]
  simp [triStateOfAny, h1, h2]

/-- In the comparator form, a universe no item of which matches
(including the empty universe) yields `none`. -/
lemma byCompare_eq_none {α ρ : Type} (allItems selectedItems : List α)
    (compareFn : α → α → Bool) (stateMapper : TriState → ρ)
    (hnone : ∀ a ∈ allItems, ∀ b ∈ selectedItems, compareFn a b = false) :
    computeSelectionTriStateByCompare allItems selectedItems compareFn stateMapper =
      stateMapper TriState.none := by
  rw [byCompare_eq_triStateOfAny]
  have h1 : allItems.any (fun item => selectedItems.any fun s => compareFn item s) = false := by
    simp only [List.any_eq_false]
    intro a ha
    simp only [Bool.not_eq_true, List.any_eq_false]
    intro b hb
    simp [hnone a ha b hb]
  simp [triStateOfAny, h1]

/-- C1: `computeSelectionTriStateByCompare` returns
`stateMapper indeterminate` when at least one item of `allItems` matches
some element of `selectedItems` under `compareFn` and at least one item
matches none; `stateMapper all` when `allItems` is non-empty and every
item matches some element; and `stateMapper none` when no item of
`allItems` matches, including when `allItems` is empty. -/
theorem triState_byCompare_cases {α ρ : Type} (allItems selectedItems : List α)
    (compareFn : α → α → Bool) (stateMapper : TriState → ρ) :
    ((∃ a ∈ allItems, ∃ b ∈ selectedItems, compareFn a b = true) ∧
       (∃ a ∈ allItems, ∀ b ∈ selectedItems, compareFn a b = false) →
      computeSelectionTriStateByCompare allItems selectedItems compareFn stateMapper =
        stateMapper TriState.indeterminate)
    ∧ (allItems ≠ [] ∧ (∀ a ∈ allItems, ∃ b ∈ selectedItems, compareFn a b = true) →
      computeSelectionTriStateByCompare allItems selectedItems compareFn stateMapper =
        stateMapper TriState.all)
    ∧ ((∀ a ∈ allItems, ∀ b ∈ selectedItems, compareFn a b = false) →
      computeSelectionTriStateByCompare allItems selectedItems compareFn stateMapper =
        stateMapper TriState.none) :=
  ⟨fun h => byCompare_eq_indeterminate allItems selectedItems compareFn stateMapper h.1 h.2,
   fun h => byCompare_eq_all allItems selectedItems compareFn stateMapper h.1 h.2,
   fun h => byCompare_eq_none allItems selectedItems compareFn stateMapper h⟩

/-- Witness for C1 at concrete inputs exercising all three branches. -/
theorem triState_byCompare_cases_witness :
    computeSelectionTriStateByCompare [1, 2] [1] (fun a b : Nat => a == b)
        (fun s => s) = TriState.indeterminate
    ∧ computeSelectionTriStateByCompare [1, 2] [2, 1] (fun a b : Nat => a == b)
        (fun s => s) = TriState.all
    ∧ computeSelectionTriStateByCompare [1, 2] [3] (fun a b : Nat => a == b)
        (fun s => s) = TriState.none :=
  ⟨(triState_byCompare_cases [1, 2] [1] (fun a b : Nat => a == b) (fun s => s)).1
      ⟨by decide, by decide⟩,
   (triState_byCompare_cases [1, 2] [2, 1] (fun a b : Nat => a == b) (fun s => s)).2.1
      ⟨by decide, by decide⟩,
   (triState_byCompare_cases [1, 2] [3] (fun a b : Nat => a == b) (fun s => s)).2.2
      (by decide)⟩

/-- Running `any` over a mapped list tests the composed predicate. -/
lemma any_map_comp {α β : Type} (f : α → β) (p : β → Bool) :
    ∀ l : List α, (l.map f).any p = l.any fun a => p (f a) := by
  intro l
  induction l <;> simp_all

/-- The per-item membership test of the key form — membership of the
item's key in the set of keys of `selectedItems` — coincides with the
comparator `(a, b) => keyExtractor a == keyExtractor b`. -/
lemma byKey_pred_eq {α κ : Type} [DecidableEq κ] (selectedItems : List α)
    (keyExtractor : α → κ) :
    (fun item => (selectedItems.map keyExtractor).contains (keyExtractor item)) =
      (fun item => selectedItems.any fun s => keyExtractor item == keyExtractor s) := by
  funext item
  rw [List.contains_eq_any_beq, any_map_comp]

/-- The key form agrees with the comparator form run with the
key-equality comparator. -/
lemma byKey_eq_byCompare_aux {α κ ρ : Type} [DecidableEq κ]
    (allItems selectedItems : List α) (keyExtractor : α → κ)
    (stateMapper : TriState → ρ) :
    computeSelectionTriStateByKey allItems selectedItems keyExtractor stateMapper =
      computeSelectionTriStateByCompare allItems selectedItems
        (fun a b => keyExtractor a == keyExtractor b) stateMapper := by
  simp only [computeSelectionTriStateByKey, computeSelectionTriStateByCompare]
  rw [byKey_pred_eq]

/-- C3: for every `allItems`, `selectedItems`, key extractor and
projection, `computeSelectionTriStateByKey` equals
`computeSelectionTriStateByCompare` run with the comparator
`(a, b) => keyExtractor a == keyExtractor b`: the two entry points agree
for the same logical equality notion. -/
theorem triState_byKey_eq_byCompare {α κ ρ : Type} [DecidableEq κ]
    (allItems selectedItems : List α) (keyExtractor : α → κ)
    (stateMapper : TriState → ρ) :
    computeSelectionTriStateByKey allItems selectedItems keyExtractor stateMapper =
      computeSelectionTriStateByCompare allItems selectedItems
        (fun a b => keyExtractor a == keyExtractor b) stateMapper :=
  byKey_eq_byCompare_aux allItems selectedItems keyExtractor stateMapper

/-- C6 counterexample: with no non-emptiness restriction the claim fails
on the empty universe — there every item vacuously matches, yet both
forms return `none`, not `all`. -/
theorem triState_all_empty_cex :
    (∀ a ∈ ([] : List Nat), ∃ b ∈ ([] : List Nat), (a == b) = true)
    ∧ computeSelectionTriStateByCompare ([] : List Nat) []
        (fun a b => a == b) (fun s => s) = TriState.none
    ∧ computeSelectionTriStateByKey ([] : List Nat) []
        (fun a => a) (fun s => s) = TriState.none
    ∧ TriState.none ≠ TriState.all :=
  ⟨by simp, rfl, rfl, by decide⟩

/-- C6 (amended): for every non-empty `allItems` in which every item
matches some item of `selectedItems` by the chosen equality notion,
both the comparator form and the key form return `all`. -/
theorem triState_all_of_nonempty {α κ ρ : Type} [DecidableEq κ]
    (allItems selectedItems : List α) (compareFn : α → α → Bool)
    (keyExtractor : α → κ) (stateMapper : TriState → ρ)
    (hne : allItems ≠ []) :
    ((∀ a ∈ allItems, ∃ b ∈ selectedItems, compareFn a b = true) →
      computeSelectionTriStateByCompare allItems selectedItems compareFn stateMapper =
        stateMapper TriState.all)
    ∧ ((∀ a ∈ allItems, ∃ b ∈ selectedItems, keyExtractor a = keyExtractor b) →
      computeSelectionTriStateByKey allItems selectedItems keyExtractor stateMapper =
        stateMapper TriState.all) := by
  constructor
  · intro hall
    exact byCompare_eq_all allItems selectedItems compareFn stateMapper hne hall
  · intro hall
    rw [byKey_eq_byCompare_aux]
    refine byCompare_eq_all allItems selectedItems _ stateMapper hne ?_
    intro a ha
    obtain ⟨b, hb, hab⟩ := hall a ha
    exact ⟨b, hb, by simp [hab]⟩

/-- Witness for C6's amended theorem at a concrete input. -/
theorem triState_all_of_nonempty_witness :
    computeSelectionTriStateByCompare [1, 2] [2, 1] (fun a b : Nat => a == b)
        (fun s => s) = TriState.all
    ∧ computeSelectionTriStateByKey [1, 2] [2, 1] (fun a : Nat => a)
        (fun s => s) = TriState.all :=
  have h := triState_all_of_nonempty [1, 2] [2, 1] (fun a b : Nat => a == b)
    (fun a : Nat => a) (fun s => s) (by decide)
  ⟨h.1 (by decide), h.2 (by decide)⟩

/-- C8: when at least one item of `allItems` matches `selectedItems` and
at least one does not, `computeSelectionTriStateByCompare` returns
`indeterminate`, and it does so for every permutation of `allItems`:
despite the short-circuit, the outcome does not depend on the ordering
of `allItems`. -/
theorem triState_indeterminate_perm {α ρ : Type} (allItems selectedItems : List α)
    (compareFn : α → α → Bool) (stateMapper : TriState → ρ)
    (hsel : ∃ a ∈ allItems, ∃ b ∈ selectedItems, compareFn a b = true)
    (hunsel : ∃ a ∈ allItems, ∀ b ∈ selectedItems, compareFn a b = false) :
    computeSelectionTriStateByCompare allItems selectedItems compareFn stateMapper =
      stateMapper TriState.indeterminate
    ∧ ∀ l, allItems.Perm l →
        computeSelectionTriStateByCompare l selectedItems compareFn stateMapper =
          stateMapper TriState.indeterminate := by
  constructor
  · exact byCompare_eq_indeterminate allItems selectedItems compareFn stateMapper hsel hunsel
  · intro l hperm
    refine byCompare_eq_indeterminate l selectedItems compareFn stateMapper ?_ ?_
    · obtain ⟨a, ha, hb⟩ := hsel
      exact ⟨a, hperm.mem_iff.mp ha, hb⟩
    · obtain ⟨a, ha, h⟩ := hunsel
      exact ⟨a, hperm.mem_iff.mp ha, h⟩

/-- Witness for C8 at a concrete input and a concrete permutation. -/
theorem triState_indeterminate_perm_witness :
    computeSelectionTriStateByCompare [1, 2] [1] (fun a b : Nat => a == b)
        (fun s => s) = TriState.indeterminate
    ∧ computeSelectionTriStateByCompare [2, 1] [1] (fun a b : Nat => a == b)
        (fun s => s) = TriState.indeterminate :=
  have h := triState_indeterminate_perm [1, 2] [1] (fun a b : Nat => a == b)
    (fun s => s) (by decide) (by decide)
  ⟨h.1, h.2 [2, 1] (List.Perm.swap 2 1 [])⟩

/-- Property keys as seen by the Proxy `get` trap of `createMock`:
either the well-known symbol `Symbol.toPrimitive`, or an ordinary
string key or numeric index. -/
inductive JsProp where
  | symToPrimitive
  | strKey (name : String)
  | idx (n : Nat)
deriving DecidableEq, Repr

/-- The JavaScript values reachable from a safe-mock placeholder:
the placeholder proxy itself (carrying its display token), the closure
returned for `Symbol.toPrimitive`, strings, and `undefined`. -/
inductive JsV where
  | undef
  | str (s : String)
  | proxy (displayToken : String)
  | primFn (displayToken : String)
deriving DecidableEq, Repr

/-- Embedding of `createMock` from the `MockMorePipe` source file
(`src/unnamed/part_004`, lines 159-193): the safe-mock proxy is a single
self-referential value fully determined by its display token; its
behavior under the trapped operations is given by `jsGet`, `jsApply` and
`jsOwnKeys` below. -/
def createMock (displayToken : String) : JsV :=
  JsV.proxy displayToken

/-- Property read. On the proxy this is the `get` trap of `createMock`:
the key `Symbol.toPrimitive` returns the closure `() => displayToken`,
and every other key returns the proxy itself. On `undefined` a property
read throws a TypeError; on the closure and on strings it yields
`undefined` without error. -/
def jsGet : JsV → JsProp → Except String JsV
  | JsV.proxy t, JsProp.symToPrimitive => Except.ok (JsV.primFn t)
  | JsV.proxy t, _ => Except.ok (JsV.proxy t)
  | JsV.undef, _ => Except.error "TypeError: cannot read properties of undefined"
  | JsV.primFn _, _ => Except.ok JsV.undef
  | JsV.str _, _ => Except.ok JsV.undef

/-- Function invocation. On the proxy this is the `apply` trap of
`createMock`, returning the proxy itself; invoking the
`Symbol.toPrimitive` closure returns the display token as a string;
`undefined` and strings are not callable. -/
def jsApply : JsV → Except String JsV
  | JsV.proxy t => Except.ok (JsV.proxy t)
  | JsV.primFn t => Except.ok (JsV.str t)
  | JsV.undef => Except.error "TypeError: undefined is not a function"
  | JsV.str _ => Except.error "TypeError: value is not a function"

/-- Own-key enumeration (`Object.keys`, `for...in`). On the proxy this
is the `ownKeys` trap of `createMock`, returning the empty list;
enumerating `undefined` throws. The remaining cases are not exercised
by the placeholder contract. -/
def jsOwnKeys : JsV → Except String (List String)
  | JsV.proxy _ => Except.ok []
  | JsV.undef => Except.error "TypeError: cannot convert undefined to object"
  | JsV.str _ => Except.ok []
  | JsV.primFn _ => Except.ok []

/-- Primitive coercion (string conversion, template interpolation),
following the ECMAScript ToPrimitive protocol on the proxy: fetch the
`Symbol.toPrimitive` method through the `get` trap and invoke it. -/
def jsToString : JsV → Except String String
  | JsV.proxy t =>
      match jsGet (JsV.proxy t) JsProp.symToPrimitive with
      | Except.ok f =>
          match jsApply f with
          | Except.ok (JsV.str s) => Except.ok s
          | Except.ok _ => Except.error "TypeError: cannot convert object to primitive value"
          | Except.error e => Except.error e
      | Except.error e => Except.error e
  | JsV.str s => Except.ok s
  | JsV.undef => Except.ok "undefined"
  | JsV.primFn _ => Except.ok "function"

/-- One structural operation of the safe-placeholder contract: an
ordinary property access, an index access, or an invocation of the
value as a function. -/
inductive StructOp where
  | access (name : String)
  | index (n : Nat)
  | invoke
deriving DecidableEq, Repr

/-- Application of one structural operation to a value. -/
def runOp (v : JsV) : StructOp → Except String JsV
  | StructOp.access name => jsGet v (JsProp.strKey name)
  | StructOp.index n => jsGet v (JsProp.idx n)
  | StructOp.invoke => jsApply v

/-- Application of a finite sequence of structural operations,
propagating the first error, if any. -/
def runOps : JsV → List StructOp → Except String JsV
  | v, [] => Except.ok v
  | v, op :: rest =>
      match runOp v op with
      | Except.ok v2 => runOps v2 rest
      | Except.error e => Except.error e

/-- C2: the safe placeholder produced by `createMock mockLabel` is
absorbing: every finite sequence of property accesses, index accesses
and invocations applied to it, at any depth, succeeds (no error is ever
raised) and returns the same placeholder; enumerating its own keys
yields the empty key list; and coercing it to a primitive yields
exactly the string `mockLabel`. -/
theorem createMock_absorbing (mockLabel : String) (ops : List StructOp) :
    runOps (createMock mockLabel) ops = Except.ok (createMock mockLabel)
    ∧ jsOwnKeys (createMock mockLabel) = Except.ok []
    ∧ jsToString (createMock mockLabel) = Except.ok mockLabel := by
  refine ⟨?_, rfl, rfl⟩
  induction ops with
  | nil => rfl
  | cons op rest ih =>
      cases op <;> simpa [runOps, runOp, jsGet, jsApply, createMock] using ih

/-- A dummy record synthesized by `MockMorePipe.transform` for an empty
input: the base `{ id: i }` plus one safe-mock field per designated
field name (source lines 123-132). -/
structure MockRecord where
  id : Nat
  mockFields : List (String × JsV)
deriving DecidableEq, Repr

/-- Normalization of the `fieldsOrField` argument performed at the top
of Case 1 (source lines 119-121): an array is used as is, a single
field name is wrapped in a one-element array when truthy (the empty
string is falsy in JavaScript), and a missing argument yields no
fields. -/
def normalizeFields : Option (String ⊕ List String) → List String
  | some (Sum.inr fields) => fields
  | some (Sum.inl f) => if f = "" then [] else [f]
  | none => []

/-- The Case-2 growth loop of `MockMorePipe.transform` (source lines
137-141): starting from `result` (seeded with one copy of `value`),
append full copies of `value` while the length is below `targetSize`.
In the source the loop is only reached with non-empty `value`; the
embedding returns `result` unchanged on empty `value` so that the
(unreachable) empty case is total. -/
def mockMoreGrow {α : Type} (value : List α) (targetSize : Nat) (result : List α) : List α :=
  if _h : result.length < targetSize then
    if _hv : value.length = 0 then result
    else mockMoreGrow value targetSize (result ++ value)
  else result
termination_by targetSize - result.length
decreasing_by
  simp only [List.length_append]
  omega

/-- Embedding of `MockMorePipe.transform` (source lines 109-146).
Case 1 (empty input): synthesize `targetSize` records `{ id: i }` with
one safe-mock field per normalized field name. Case 2 (input shorter
than `targetSize`): repeat the input via the growth loop. Case 3:
return the input unchanged. The parameter `mkRec` embeds the unchecked
cast `base as T` the source applies to each synthesized record. -/
def MockMorePipe.transform {α : Type} (value : List α)
    (fieldsOrField : Option (String ⊕ List String)) (targetSize : Nat)
    (mockLabel : String) (mkRec : MockRecord → α) : List α :=
  let currentLength := value.length
  if currentLength = 0 then
    let fields := normalizeFields fieldsOrField
    (List.range targetSize).map fun i =>
      mkRec { id := i, mockFields := fields.map fun f => (f, createMock mockLabel) }
  else if currentLength < targetSize then
    mockMoreGrow value targetSize value
  else
    value

/-- Concatenating c copies of a list multiplies its length by c. -/
lemma length_flatten_replicate {α : Type} (value : List α) :
    ∀ c : Nat, (List.flatten (List.replicate c value)).length = c * value.length := by
  intro c
  induction c with
  | zero => simp
  | succ c ih => simp [List.replicate_succ, ih, Nat.succ_mul, Nat.add_comm]

/-- Characterization of the growth loop: it appends exactly
ceil((targetSize - result.length) / value.length) further copies of
`value`. -/
lemma mockMoreGrow_eq_flatten {α : Type} (value : List α) (targetSize : Nat)
    (hv : value ≠ []) :
    ∀ acc : List α, mockMoreGrow value targetSize acc =
      acc ++ List.flatten (List.replicate
        ((targetSize - acc.length + value.length - 1) / value.length) value) := by
  have hlen : 0 < value.length := List.length_pos.mpr hv
  suffices H : ∀ n acc, targetSize - List.length acc ≤ n →
      mockMoreGrow value targetSize acc = acc ++ List.flatten (List.replicate
        ((targetSize - acc.length + value.length - 1) / value.length) value) by
    exact fun acc => H (targetSize - acc.length) acc le_rfl
  intro n
  induction n with
  | zero =>
      intro acc h
      have hge : ¬ acc.length < targetSize := by omega
      rw [mockMoreGrow, dif_neg hge]
      have h0 : targetSize - acc.length = 0 := by omega
      rw [h0]
      have hd : (0 + value.length - 1) / value.length = 0 := Nat.div_eq_of_lt (by omega)
      rw [hd]
      simp
  | succ n ih =>
      intro acc h
      by_cases hlt : acc.length < targetSize
      · rw [mockMoreGrow, dif_pos hlt, dif_neg (by omega : ¬ value.length = 0)]
        rw [ih (acc ++ value) (by simp only [List.length_append]; omega)]
        have hk : (targetSize - acc.length + value.length - 1) / value.length
            = (targetSize - (acc ++ value).length + value.length - 1) / value.length + 1 := by
          simp only [List.length_append]
          rcases le_or_lt value.length (targetSize - acc.length) with hcase | hcase
          · have h1 : targetSize - (acc.length + value.length)
                = targetSize - acc.length - value.length := by omega
            rw [h1]
            have h2 : targetSize - acc.length + value.length - 1
                = (targetSize - acc.length - value.length + value.length - 1)
                  + value.length := by omega
            rw [h2, Nat.add_div_right _ hlen]
          · have h1 : targetSize - (acc.length + value.length) = 0 := by omega
            rw [h1]
            have h2 : (0 + value.length - 1) / value.length = 0 :=
              Nat.div_eq_of_lt (by omega)
            rw [h2]
            exact Nat.div_eq_of_lt_le (by omega) (by omega)
        rw [hk]
        simp [List.replicate_succ, List.append_assoc]
      · rw [mockMoreGrow, dif_neg hlt]
        have h0 : targetSize - acc.length = 0 := by omega
        rw [h0]
        have hd : (0 + value.length - 1) / value.length = 0 := Nat.div_eq_of_lt (by omega)
        rw [hd]
        simp

/-- C4: for non-empty input shorter than `targetSize`,
`MockMorePipe.transform` returns exactly
ceil(targetSize / value.length) full copies of `value` concatenated in
original order; the result length is that multiple of `value.length`,
which is at least `targetSize` and is the least such multiple. -/
theorem mockMore_transform_duplication {α : Type} (value : List α)
    (fieldsOrField : Option (String ⊕ List String)) (targetSize : Nat)
    (mockLabel : String) (mkRec : MockRecord → α)
    (hv : value ≠ []) (hlt : value.length < targetSize) :
    MockMorePipe.transform value fieldsOrField targetSize mockLabel mkRec =
      List.flatten (List.replicate ((targetSize + value.length - 1) / value.length) value)
    ∧ (MockMorePipe.transform value fieldsOrField targetSize mockLabel mkRec).length =
      ((targetSize + value.length - 1) / value.length) * value.length
    ∧ targetSize ≤ ((targetSize + value.length - 1) / value.length) * value.length
    ∧ ∀ m : Nat, targetSize ≤ m * value.length →
        ((targetSize + value.length - 1) / value.length) * value.length
          ≤ m * value.length := by
  have hlen : 0 < value.length := List.length_pos.mpr hv
  have htr : MockMorePipe.transform value fieldsOrField targetSize mockLabel mkRec
      = mockMoreGrow value targetSize value := by
    simp only [MockMorePipe.transform]
    rw [if_neg (by omega : ¬ value.length = 0), if_pos hlt]
  have hk : (targetSize + value.length - 1) / value.length
      = (targetSize - value.length + value.length - 1) / value.length + 1 := by
    have he : targetSize + value.length - 1
        = (targetSize - value.length + value.length - 1) + value.length := by omega
    rw [he, Nat.add_div_right _ hlen]
  have heq : MockMorePipe.transform value fieldsOrField targetSize mockLabel mkRec =
      List.flatten (List.replicate
        ((targetSize + value.length - 1) / value.length) value) := by
    rw [htr, mockMoreGrow_eq_flatten value targetSize hv value, hk]
    simp [List.replicate_succ]
  refine ⟨heq, ?_, ?_, ?_⟩
  · rw [heq, length_flatten_replicate]
  · have hd := Nat.div_add_mod (targetSize + value.length - 1) value.length
    have hm : (targetSize + value.length - 1) % value.length < value.length :=
      Nat.mod_lt _ hlen
    have hc : ((targetSize + value.length - 1) / value.length) * value.length
        = value.length * ((targetSize + value.length - 1) / value.length) :=
      Nat.mul_comm _ _
    omega
  · intro m hm
    have hdm : (targetSize + value.length - 1) / value.length ≤ m := by
      rw [Nat.div_le_iff_le_mul_add_pred hlen]
      have hc : m * value.length = value.length * m := Nat.mul_comm _ _
      omega
    exact Nat.mul_le_mul_right _ hdm

/-- Witness for C4 at the concrete input from the spec:
expanding [1,2,3] to target size 10 yields [1,2,3] repeated 4 times,
of length 12. -/
theorem mockMore_transform_duplication_witness :
    ([1, 2, 3] : List Nat) ≠ []
    ∧ ([1, 2, 3] : List Nat).length < 10
    ∧ MockMorePipe.transform ([1, 2, 3] : List Nat) none 10 "mock" (fun _ => 0) =
        List.flatten (List.replicate 4 [1, 2, 3])
    ∧ (MockMorePipe.transform ([1, 2, 3] : List Nat) none 10 "mock" (fun _ => 0)).length
        = 12 :=
  have h := mockMore_transform_duplication ([1, 2, 3] : List Nat) none 10 "mock"
    (fun _ => 0) (by decide) (by decide)
  ⟨by decide, by decide, h.1, h.2.1⟩

/-- C5: on an empty input, `MockMorePipe.transform` synthesizes exactly
`targetSize` records; record i has id i plus one safe-mock field per
designated field name, and only the id when the field list is empty or
omitted. -/
theorem mockMore_transform_empty (fieldsOrField : Option (String ⊕ List String))
    (targetSize : Nat) (mockLabel : String) :
    (MockMorePipe.transform ([] : List MockRecord) fieldsOrField targetSize mockLabel
        (fun r => r)).length = targetSize
    ∧ ∀ i (h : i < (MockMorePipe.transform ([] : List MockRecord) fieldsOrField
          targetSize mockLabel (fun r => r)).length),
        (MockMorePipe.transform ([] : List MockRecord) fieldsOrField targetSize mockLabel
            (fun r => r)).get ⟨i, h⟩ =
          { id := i,
            mockFields := (normalizeFields fieldsOrField).map
              fun f => (f, createMock mockLabel) } := by
  have htr : MockMorePipe.transform ([] : List MockRecord) fieldsOrField targetSize
      mockLabel (fun r => r)
      = (List.range targetSize).map fun i =>
          ({ id := i,
             mockFields := (normalizeFields fieldsOrField).map
               fun f => (f, createMock mockLabel) } : MockRecord) := by
    simp [MockMorePipe.transform]
  constructor
  · rw [htr]
    simp
  · intro i h
    have h2 : i < targetSize := by
      rw [htr] at h
      simpa using h
    simp [htr, List.get_eq_getElem, h2]

/-- Witness for C5 at the concrete input from the spec: 100 records
with ids 0..99 and no extra fields. -/
theorem mockMore_transform_empty_witness :
    (MockMorePipe.transform ([] : List MockRecord) (some (Sum.inr [])) 100 "mock"
        (fun r => r)).length = 100
    ∧ (MockMorePipe.transform ([] : List MockRecord) (some (Sum.inr [])) 100 "mock"
        (fun r => r)).get ⟨5, by decide⟩ = { id := 5, mockFields := [] } :=
  have h := mockMore_transform_empty (some (Sum.inr [])) 100 "mock"
  ⟨h.1, h.2 5 (by decide)⟩

/-- The growth loop always reaches at least the target size when the
repeated value is non-empty. -/
lemma mockMoreGrow_length_ge {α : Type} (value : List α) (targetSize : Nat)
    (hv : value ≠ []) (acc : List α) :
    targetSize ≤ (mockMoreGrow value targetSize acc).length := by
  have hlen : 0 < value.length := List.length_pos.mpr hv
  rw [mockMoreGrow_eq_flatten value targetSize hv acc, List.length_append,
    length_flatten_replicate]
  rcases le_or_lt targetSize acc.length with hge | hlt
  · omega
  · have hd := Nat.div_add_mod (targetSize - acc.length + value.length - 1) value.length
    have hm : (targetSize - acc.length + value.length - 1) % value.length
        < value.length := Nat.mod_lt _ hlen
    have hc : ((targetSize - acc.length + value.length - 1) / value.length) * value.length
        = value.length *
          ((targetSize - acc.length + value.length - 1) / value.length) :=
      Nat.mul_comm _ _
    omega

/-- C7: an input already at least as long as `targetSize` is returned
unchanged by `MockMorePipe.transform`; consequently applying the
transform a second time with the same arguments to the result of a
first application yields the same result as applying it once. -/
theorem mockMore_transform_idempotent {α : Type} (value : List α)
    (fieldsOrField : Option (String ⊕ List String)) (targetSize : Nat)
    (mockLabel : String) (mkRec : MockRecord → α) :
    (targetSize ≤ value.length →
      MockMorePipe.transform value fieldsOrField targetSize mockLabel mkRec = value)
    ∧ MockMorePipe.transform
        (MockMorePipe.transform value fieldsOrField targetSize mockLabel mkRec)
        fieldsOrField targetSize mockLabel mkRec =
      MockMorePipe.transform value fieldsOrField targetSize mockLabel mkRec := by
  have hid : ∀ w : List α, targetSize ≤ w.length →
      MockMorePipe.transform w fieldsOrField targetSize mockLabel mkRec = w := by
    intro w hw
    by_cases h0 : w.length = 0
    · have ht0 : targetSize = 0 := by omega
      have hw0 : w = [] := List.length_eq_zero.mp h0
      subst ht0
      subst hw0
      simp [MockMorePipe.transform]
    · simp only [MockMorePipe.transform]
      rw [if_neg h0, if_neg (by omega : ¬ w.length < targetSize)]
  refine ⟨hid value, ?_⟩
  by_cases h0 : value.length = 0
  · have htr : MockMorePipe.transform value fieldsOrField targetSize mockLabel mkRec
        = (List.range targetSize).map fun i =>
            mkRec { id := i,
                    mockFields := ((normalizeFields fieldsOrField).map
                      fun f => (f, createMock mockLabel)) } := by
      simp [MockMorePipe.transform, h0]
    have hlen2 : (MockMorePipe.transform value fieldsOrField targetSize mockLabel
        mkRec).length = targetSize := by
      rw [htr]
      simp
    exact hid _ (le_of_eq hlen2.symm)
  · by_cases hlt : value.length < targetSize
    · have hvne : value ≠ [] := fun hcontra => h0 (by simp [hcontra])
      have htr : MockMorePipe.transform value fieldsOrField targetSize mockLabel mkRec
          = mockMoreGrow value targetSize value := by
        simp only [MockMorePipe.transform]
        rw [if_neg h0, if_pos hlt]
      rw [htr]
      exact hid _ (mockMoreGrow_length_ge value targetSize hvne value)
    · rw [hid value (by omega)]
      exact hid value (by omega)

/-- Witness for C7 at the concrete input from the spec. -/
theorem mockMore_transform_idempotent_witness :
    MockMorePipe.transform ([1, 2, 3, 4, 5] : List Nat) none 3 "mock" (fun _ => 0)
      = [1, 2, 3, 4, 5]
    ∧ MockMorePipe.transform
        (MockMorePipe.transform ([1, 2, 3, 4, 5] : List Nat) none 3 "mock" (fun _ => 0))
        none 3 "mock" (fun _ => 0)
      = MockMorePipe.transform ([1, 2, 3, 4, 5] : List Nat) none 3 "mock" (fun _ => 0) :=
  have h := mockMore_transform_idempotent ([1, 2, 3, 4, 5] : List Nat) none 3 "mock"
    (fun _ => 0)
  ⟨h.1 (by decide), h.2⟩

/-- Step-counting version of the growth loop: each loop iteration
consumes one unit of fuel; with the fuel exhausted while the length is
still below target, it reports failure instead of iterating. -/
def mockMoreGrowFuel {α : Type} (value : List α) (targetSize : Nat) :
    Nat → List α → Option (List α)
  | 0, result => if result.length < targetSize then Option.none else some result
  | fuel + 1, result =>
      if result.length < targetSize then
        if value.length = 0 then some result
        else mockMoreGrowFuel value targetSize fuel (result ++ value)
      else some result

/-- Step-counting version of `MockMorePipe.transform`, identical except
that the Case-2 loop runs on the given fuel. -/
def MockMorePipe.transformFuel {α : Type} (value : List α)
    (fieldsOrField : Option (String ⊕ List String)) (targetSize : Nat)
    (mockLabel : String) (mkRec : MockRecord → α) (fuel : Nat) : Option (List α) :=
  let currentLength := value.length
  if currentLength = 0 then
    let fields := normalizeFields fieldsOrField
    some ((List.range targetSize).map fun i =>
      mkRec { id := i, mockFields := fields.map fun f => (f, createMock mockLabel) })
  else if currentLength < targetSize then
    mockMoreGrowFuel value targetSize fuel value
  else
    some value

/-- With the accumulator within `fuel` of the target, the fueled loop
completes and agrees with the loop: each iteration grows the
accumulator by at least one element. -/
lemma mockMoreGrowFuel_complete {α : Type} (value : List α) (targetSize : Nat)
    (hv : ¬ value.length = 0) :
    ∀ fuel acc, targetSize ≤ acc.length + fuel →
      mockMoreGrowFuel value targetSize fuel acc
        = some (mockMoreGrow value targetSize acc) := by
  intro fuel
  induction fuel with
  | zero =>
      intro acc h
      have hge : ¬ acc.length < targetSize := by omega
      rw [mockMoreGrow, dif_neg hge]
      simp [mockMoreGrowFuel, hge]
  | succ fuel ih =>
      intro acc h
      by_cases hlt : acc.length < targetSize
      · simp only [mockMoreGrowFuel]
        rw [if_pos hlt, if_neg hv,
          ih (acc ++ value) (by simp only [List.length_append]; omega)]
        conv_rhs => rw [mockMoreGrow]
        rw [dif_pos hlt, dif_neg hv]
      · simp only [mockMoreGrowFuel]
        rw [if_neg hlt]
        conv_rhs => rw [mockMoreGrow]
        rw [dif_neg hlt]

/-- C9: `MockMorePipe.transform` terminates on every input: running the
step-counting version with only `targetSize` units of fuel already
completes, on every branch, and returns the transform result — in the
duplication branch the input is non-empty, so each iteration grows the
accumulator by at least one element until it reaches `targetSize`. -/
theorem mockMore_transform_terminates {α : Type} (value : List α)
    (fieldsOrField : Option (String ⊕ List String)) (targetSize : Nat)
    (mockLabel : String) (mkRec : MockRecord → α) :
    MockMorePipe.transformFuel value fieldsOrField targetSize mockLabel mkRec targetSize
      = some (MockMorePipe.transform value fieldsOrField targetSize mockLabel mkRec) := by
  by_cases h0 : value.length = 0
  · simp [MockMorePipe.transformFuel, MockMorePipe.transform, h0]
  · by_cases hlt : value.length < targetSize
    · simp only [MockMorePipe.transformFuel, MockMorePipe.transform]
      rw [if_neg h0, if_neg h0, if_pos hlt, if_pos hlt]
      exact mockMoreGrowFuel_complete value targetSize h0 targetSize value (by omega)
    · simp only [MockMorePipe.transformFuel, MockMorePipe.transform]
      rw [if_neg h0, if_neg h0, if_neg hlt, if_neg hlt]

/-- A value of an emission of type `T | null | undefined`, as accepted
by the `skipUntilNonNull` operator from
`src/rxjs/operator/skipUntilNonNull.ts`. -/
inductive JsNullable (α : Type) where
  | nullV
  | undefinedV
  | value (a : α)
deriving DecidableEq, Repr

/-- The loose inequality test `value != null` of the filter predicate:
true exactly on values that are neither `null` nor `undefined`. -/
def JsNullable.isNonNull {α : Type} : JsNullable α → Bool
  | JsNullable.nullV => false
  | JsNullable.undefinedV => false
  | JsNullable.value _ => true

/-- The stateful filter predicate of `skipUntilNonNull`, folded over the
synchronous emission sequence with the closure variable `hasEmitted` as
explicit state: once `hasEmitted` is set every value passes; before
that, a non-null value passes and sets the flag, and null/undefined
values are dropped. -/
def skipUntilNonNullGo {α : Type} : Bool → List (JsNullable α) → List (JsNullable α)
  | _, [] => []
  | hasEmitted, v :: rest =>
      if hasEmitted then v :: skipUntilNonNullGo true rest
      else if v.isNonNull then v :: skipUntilNonNullGo true rest
      else skipUntilNonNullGo hasEmitted rest

/-- Embedding of the `skipUntilNonNull` operator applied to a finite
synchronous emission sequence: the closure starts with
`hasEmitted = false`. -/
def skipUntilNonNull {α : Type} (source : List (JsNullable α)) : List (JsNullable α) :=
  skipUntilNonNullGo false source

/-- Once the flag is set, the filter passes everything through. -/
lemma skipUntilNonNullGo_true {α : Type} :
    ∀ l : List (JsNullable α), skipUntilNonNullGo true l = l := by
  intro l
  induction l with
  | nil => rfl
  | cons v rest ih => simp [skipUntilNonNullGo, ih]

/-- C10: `skipUntilNonNull` drops exactly the longest prefix of null and
undefined values and passes every subsequent value through unchanged —
including null and undefined values occurring after the first
non-null, non-undefined value. -/
theorem skipUntilNonNull_eq_dropWhile {α : Type} (source : List (JsNullable α)) :
    skipUntilNonNull source = source.dropWhile fun v => !(JsNullable.isNonNull v) := by
  unfold skipUntilNonNull
  induction source with
  | nil => rfl
  | cons v rest ih =>
      cases hv : v.isNonNull
      · simp [skipUntilNonNullGo, List.dropWhile, hv, ih]
      · simp [skipUntilNonNullGo, List.dropWhile, hv, skipUntilNonNullGo_true]
